import Mathlib

/-!
# Shallow embedding of the click shell-completion engine

This file embeds the completion-resolution code of
`src/click/_bashcomplete.py` and `src/click/shell_completion.py` into Lean 4
and proves properties of it.  Pure predicate functions are translated
directly; the data model (commands, parameters, contexts) follows the
repository's data model, with the accessors that live in the external
argument-parsing engine (`Command.get_params`, `MultiCommand.list_commands`,
`MultiCommand.get_command`, `Command.get_short_help_str`) modelled from the
specification's description of their contracts.
-/

namespace ClickComp

/-- `WORDBREAK = "="` from `_bashcomplete.py`. -/
def WORDBREAK : String := "="

/-- Whether a parameter is an `Option` or an `Argument`
(`isinstance(cmd_param, Option)` / `isinstance(cmd_param, Argument)`). -/
inductive ParamKind where
  | option
  | argument
deriving DecidableEq, Repr

/-- A value yielded by a dynamic autocompletion callback: either a bare
value or a `(value, description)` tuple. -/
inductive DynResult where
  | bare (v : String)
  | pair (v : String) (d : Option String)
deriving DecidableEq, Repr

/-- A parameter's type: a fixed `Choice` set or anything else
(free text / other click types, not completable from values). -/
inductive ParamType where
  | choice (choices : List String)
  | other
deriving DecidableEq, Repr

/-- A click parameter (Option or Argument).  Fields are the attributes the
completion code reads: `opts`, `secondary_opts`, `nargs`, `is_flag`,
`multiple`, `hidden`, `help`, the value type and the optional dynamic
autocompletion callback (represented by an identifier that is interpreted
by an environment of user callbacks, see `get_user_autocompletions`). -/
structure Param where
  kind : ParamKind
  name : String
  opts : List String
  secondary_opts : List String
  nargs : Int
  is_flag : Bool
  multiple : Bool
  hidden : Bool
  help : Option String
  ptype : ParamType
  autocompletion : Option Nat
deriving DecidableEq, Repr

/-- A parsed parameter value as stored in `ctx.params`: Python `None`, a
plain string, or a tuple of collected values.  (Python strings are
iterable, which `is_incomplete_argument` relies on, so both non-`None`
shapes count as iterable.) -/
inductive PValue where
  | pnone
  | pstr (s : String)
  | plist (vs : List String)
deriving DecidableEq, Repr

/-- A command node.  `leaf` is a plain `Command`; `multi` is a
`MultiCommand` with a `chain` flag and children.  Modelled from the spec:
the command tree itself is built by the excluded declaration layer and is
read-only here. -/
inductive Cmd where
  | leaf (name : String) (params : List Param) (hidden : Bool) (short_help : String)
  | multi (name : String) (params : List Param) (hidden : Bool) (short_help : String)
      (chain : Bool) (children : List Cmd)

def Cmd.name : Cmd → String
  | .leaf n _ _ _ => n
  | .multi n _ _ _ _ _ => n

/-- Modelled from the spec: `Command.GetParams(ctx) -> ordered parameters`
(declaration order). -/
def Cmd.get_params : Cmd → List Param
  | .leaf _ ps _ _ => ps
  | .multi _ ps _ _ _ _ => ps

def Cmd.hidden : Cmd → Bool
  | .leaf _ _ h _ => h
  | .multi _ _ h _ _ _ => h

/-- Modelled from the spec: `Command.get_short_help_str()` (short-help
text, possibly empty). -/
def Cmd.short_help : Cmd → String
  | .leaf _ _ _ s => s
  | .multi _ _ _ s _ _ => s

/-- `isinstance(ctx.command, MultiCommand)`. -/
def Cmd.isMultiCommand : Cmd → Bool
  | .leaf _ _ _ _ => false
  | .multi _ _ _ _ _ _ => true

def Cmd.chain : Cmd → Bool
  | .leaf _ _ _ _ => false
  | .multi _ _ _ _ c _ => c

def Cmd.children : Cmd → List Cmd
  | .leaf _ _ _ _ => []
  | .multi _ _ _ _ _ cs => cs

/-- Modelled from the spec: `Container.ListCommands(ctx) -> names`
(the children's names, addressable by name). -/
def Cmd.list_commands (c : Cmd) : List String :=
  c.children.map Cmd.name

/-- Modelled from the spec: `Container.GetCommand(ctx, name) -> node or
none` (lookup of a child by name). -/
def Cmd.get_command (c : Cmd) (n : String) : Option Cmd :=
  c.children.find? (fun k => k.name == n)

/-- One resolved context frame: the command it activates, the
already-parsed parameter values keyed by parameter name, and the residual
token partitions `protected_args` / `args`.  Context frames are produced
by the external resilient parsing engine; the completion code only reads
them. -/
structure CtxFrame where
  command : Cmd
  params : String → PValue
  protected_args : List String
  args : List String

/-- A resolved context with its parent chain.  The source links contexts
through a `parent` back-reference (`root → ... → innermost`); here the
chain is represented by the active frame together with the list of its
strict ancestors, innermost parent first — the representations are
isomorphic and the walk `while ctx.parent is not None: ctx = ctx.parent`
is the traversal of `parents` from the front. -/
structure Ctx where
  frame : CtxFrame
  parents : List CtxFrame

def Ctx.command (c : Ctx) : Cmd := c.frame.command

def Ctx.params (c : Ctx) : String → PValue := c.frame.params

def Ctx.protected_args (c : Ctx) : List String := c.frame.protected_args

/-- A completion candidate: a `(display value, optional description)`
pair. -/
abbrev Candidate := String × Option String

/-! ## Tokenizer / arg-classifier primitives (`_bashcomplete.py`) -/

/-- `p.startswith(q)` / `q.isPrefixOf p`, computed on the underlying
character lists (Python `str` comparison is by code points). -/
def str_isPrefixOf (p s : String) : Bool := List.isPrefixOf p.data s.data

/-- `start_of_option(param_str)`: the token is non-empty and its first
character is `-` (`param_str and param_str[:1] == "-"`). -/
def start_of_option (param_str : String) : Bool :=
  match param_str.data with
  | [] => false
  | c :: _ => c == '-'

/-- `is_incomplete_option(all_args, cmd_param)` from `_bashcomplete.py`
(the copy in `shell_completion.py` is character-for-character the same
logic): scan the args with `"="` tokens removed, from the end, over the
first `nargs` positions; every flag-like token overwrites `last_option`;
finally test membership of `last_option` in `cmd_param.opts`. -/
def is_incomplete_option (all_args : List String) (cmd_param : Param) : Bool :=
  if cmd_param.kind != ParamKind.option then false
  else if cmd_param.is_flag then false
  else
    let scanned := ((all_args.filter (fun a => a != WORDBREAK)).reverse).take
      cmd_param.nargs.toNat
    let last_option := scanned.foldl
      (fun acc a => if start_of_option a then some a else acc) (none : Option String)
    match last_option with
    | some o => cmd_param.opts.contains o
    | none => false

/-- The iterability test `isinstance(current_param_values, abc.Iterable)`:
both strings and tuples are iterable in Python. -/
def PValue.isIterable : PValue → Bool
  | .pnone => false
  | .pstr _ => true
  | .plist _ => true

/-- `len(current_param_values)` for the iterable shapes. -/
def PValue.len : PValue → Nat
  | .pnone => 0
  | .pstr s => s.length
  | .plist vs => vs.length

/-- `is_incomplete_argument(current_params, cmd_param)` from
`_bashcomplete.py`. -/
def is_incomplete_argument (current_params : String → PValue) (cmd_param : Param) : Bool :=
  if cmd_param.kind != ParamKind.argument then false
  else
    let current_param_values := current_params cmd_param.name
    if current_param_values == PValue.pnone then true
    else if cmd_param.nargs == -1 then true
    else if current_param_values.isIterable && cmd_param.nargs > 1 &&
        (current_param_values.len : Int) < cmd_param.nargs then true
    else false

/-- The reading of `is_incomplete_option` asserted by the claim: among the
last `nargs` tokens (after removing `"="` tokens) the *nearest-to-the-end*
flag-like token is the one tested against `cmd_param.opts`.  This
definition follows the claim's words, for comparison with the source
translation above. -/
def claim_is_incomplete_option (all_args : List String) (cmd_param : Param) : Bool :=
  decide (cmd_param.kind = ParamKind.option) && !cmd_param.is_flag &&
    (match (((all_args.filter (fun a => a != WORDBREAK)).reverse).take
        cmd_param.nargs.toNat).find? (fun a => start_of_option a) with
     | some o => cmd_param.opts.contains o
     | none => false)

/-! ## Completion engine (`_bashcomplete.py`) -/

/-- `get_user_autocompletions(ctx, args, incomplete, cmd_param)`: value
candidates for one parameter.  A fixed `Choice` set is filtered by prefix
(descriptions are not supported for choices); otherwise a dynamic
callback, when present, is invoked with `(ctx, args, incomplete)` and its
bare values are normalized to `(value, None)` pairs; otherwise there are
no candidates.  `interp` is the environment of caller-supplied callbacks
(callbacks are referenced by identifier in `Param.autocompletion`). -/
def get_user_autocompletions (interp : Nat → Ctx → List String → String → List DynResult)
    (ctx : Ctx) (args : List String) (incomplete : String) (cmd_param : Param) :
    List Candidate :=
  match cmd_param.ptype with
  | ParamType.choice cs =>
      (cs.filter (fun c => str_isPrefixOf incomplete c)).map
        (fun c => ((c, none) : Candidate))
  | ParamType.other =>
      match cmd_param.autocompletion with
      | some cid =>
          (interp cid ctx args incomplete).map
            (fun r => match r with
              | DynResult.bare v => ((v, none) : Candidate)
              | DynResult.pair v d => (v, d))
      | none => []

/-- `get_visible_commands_starting_with(ctx, starts_with)`: the visible
(non-hidden) child commands whose name starts with `starts_with`.  (The
source consults the context frame only for its command.) -/
def get_visible_commands_starting_with (f : CtxFrame) (starts_with : String) : List Cmd :=
  (f.command.list_commands).filterMap (fun c =>
    if str_isPrefixOf starts_with c then
      match f.command.get_command c with
      | some command => if !command.hidden then some command else none
      | none => none
    else none)

/-- The contribution of one ancestor context frame in the parent-chain
walk of `add_subcommand_completions`: a chained `MultiCommand` ancestor
offers its visible prefix-matching children except those whose name is in
that context's `protected_args`. -/
def chain_contribution (incomplete : String) (f : CtxFrame) : List Candidate :=
  if f.command.isMultiCommand && f.command.chain then
    ((get_visible_commands_starting_with f incomplete).filter
        (fun k => !(f.protected_args.contains k.name))).map
      (fun k => ((k.name, some k.short_help) : Candidate))
  else []

/-- The `while ctx.parent is not None` walk of
`add_subcommand_completions`: each ancestor, innermost parent first,
contributes `chain_contribution`. -/
def chained_completions (incomplete : String) (parents : List CtxFrame) : List Candidate :=
  parents.flatMap (chain_contribution incomplete)

/-- `add_subcommand_completions(ctx, incomplete, completions_out)`: the
candidates appended to `completions_out` — the active `MultiCommand`'s
visible prefix-matching children (with short help) followed by every
chained ancestor's contribution. -/
def add_subcommand_completions (ctx : Ctx) (incomplete : String) : List Candidate :=
  (if ctx.command.isMultiCommand then
      (get_visible_commands_starting_with ctx.frame incomplete).map
        (fun c => ((c.name, some c.short_help) : Candidate))
    else [])
  ++ chained_completions incomplete ctx.parents

/-- Strict code-point comparison of characters (how Python compares the
characters of strings). -/
def charLTb (a b : Char) : Bool := decide (a.toNat < b.toNat)

/-- Lexicographic code-point comparison of character lists:
`charListLEb a.data b.data` models Python `a <= b` on strings. -/
def charListLEb : List Char → List Char → Bool
  | [], _ => true
  | _ :: _, [] => false
  | a :: as, b :: bs => if a = b then charListLEb as bs else charLTb a b

/-- Ordering on optional descriptions used to model Python tuple
comparison (`None` never occurs next to a string in a reachable
`sorted(...)` call; the lift is a total order extending the reachable
comparisons). -/
def descLEb : Option String → Option String → Bool
  | none, _ => true
  | some _, none => false
  | some a, some b => charListLEb a.data b.data

/-- Python's default tuple comparison on candidates: lexicographic, first
by display value, then by description. -/
def candLEb (a b : Candidate) : Bool :=
  if a.1 = b.1 then descLEb a.2 b.2 else charListLEb a.1.data b.1.data

/-- `sorted(completions)`: Python's stable ascending sort, modelled as a
stable insertion sort with the same total order. -/
def py_sorted (l : List Candidate) : List Candidate :=
  List.insertionSort (fun a b => candLEb a b = true) l

/-- `incomplete.partition(WORDBREAK)` projected to components 0 and 2:
the part before the first `=` and the part after it (the original string
and the empty string when `=` does not occur). -/
def py_partition_eq (s : String) : String × String :=
  match s.data.dropWhile (fun c => c != '=') with
  | [] => (s, "")
  | _ :: t => (String.mk (s.data.takeWhile (fun c => c != '=')), String.mk t)

/-- The word-break normalization at the top of `get_choices` (and of
`resolve_partial_value`): a flag-like `incomplete` containing `=` is
split, its head is appended to `all_args` and its tail becomes the new
`incomplete`; a bare `=` becomes the empty string. -/
def normalize_incomplete (all_args : List String) (incomplete : String) :
    List String × String :=
  if start_of_option incomplete && incomplete.data.contains '=' then
    (all_args ++ [(py_partition_eq incomplete).1], (py_partition_eq incomplete).2)
  else if incomplete == WORDBREAK then (all_args, "")
  else (all_args, incomplete)

/-- The option-name completion block of `get_choices` (lines 204-213):
for every visible `Option`, the spellings (`opts + secondary_opts`) that
are not already supplied (unless the option is `multiple`) and that start
with `incomplete`, paired with the option's help text. -/
def option_name_completions (ctx : Ctx) (all_args : List String) (incomplete : String) :
    List Candidate :=
  (ctx.command.get_params).flatMap (fun param =>
    if decide (param.kind = ParamKind.option) && !param.hidden then
      let param_opts := (param.opts ++ param.secondary_opts).filter
        (fun o => !(all_args.contains o) || param.multiple)
      (param_opts.filter (fun o => str_isPrefixOf incomplete o)).map
        (fun o => ((o, param.help) : Candidate))
    else [])

/-- `get_choices(cli, prog_name, args, incomplete)` from the point where
the context has been resolved (the call to the external resilient parser
`resolve_ctx` is the collaborator that produces `ctx`; everything after it
is translated here): remember whether `--` occurs in the original args,
normalize the word-break, then classify — option names, first awaiting
option's values, first awaiting argument's values, or sorted subcommand
completions. -/
def get_choices_from_ctx (interp : Nat → Ctx → List String → String → List DynResult)
    (ctx : Ctx) (args : List String) (incomplete : String) : List Candidate :=
  let has_double_dash := args.contains "--"
  let n := normalize_incomplete args incomplete
  let all_args := n.1
  let inc := n.2
  if !has_double_dash && start_of_option inc then
    option_name_completions ctx all_args inc
  else
    match (ctx.command.get_params).find? (fun p => is_incomplete_option all_args p) with
    | some p => get_user_autocompletions interp ctx all_args inc p
    | none =>
      match (ctx.command.get_params).find?
          (fun p => is_incomplete_argument ctx.params p) with
      | some p => get_user_autocompletions interp ctx all_args inc p
      | none => py_sorted (add_subcommand_completions ctx inc)

/-! ## Shell adapters and registry (`shell_completion.py`) -/

/-- A completion class as the registry sees it: its chain of base classes
(`__base__`, `__base__.__base__`, ... by name), what its `source()`
returns (`none` models the base class's `NotImplementedError`), whether
`source()` first probes the bash version (only `BashComplete` does), and
whether `complete()` is overridden. -/
structure CompletionCls where
  base_chain : List String
  src_template : Option String
  src_checks_bash_version : Bool
  cmpl_implemented : Bool
deriving DecidableEq, Repr

/-- The bash activation-script template (`shell_completion.py` lines
17-51), the Python string literal's escapes resolved; braces are written
`\x7b` / `\x7d`. -/
def COMPLETION_SCRIPT_BASH : String :=
  "\n%(complete_func)s() \x7b\n    local IFS=$'\n'\n    local response\n\n    response=$( env COMP_WORDS=\"$\x7bCOMP_WORDS[*]\x7d\" \\\n                   COMP_CWORD=$COMP_CWORD \\\n                   %(autocomplete_var)s=complete $1 )\n\n    # if [[ -z $response ]]; then\n    #     COMPREPLY=\"\"\n    # fi\n\n    for completion in $response; do\n        IFS=',' read type value <<< \"$completion\"\n        if [[ $type == 'dir' ]]; then\n            COMREPLY=()\n            compopt -o dirnames\n        elif [[ $type == 'file' ]]; then\n            COMREPLY=()\n            compopt -o default\n        elif [[ $type == 'none' ]]; then\n            COMPREPLY+=($value)\n        fi\n    done\n\n    return 0\n\x7d\n\n%(complete_func)s_setup() \x7b\n    complete -o nosort -F %(complete_func)s %(script_names)s\n\x7d\n\n%(complete_func)s_setup\n"

/-- The zsh activation-script template (`shell_completion.py` lines
53-86). -/
def COMPLETION_SCRIPT_ZSH : String :=
  "\n#compdef %(script_names)s\n\n%(complete_func)s() \x7b\n    local -a completions\n    local -a completions_with_descriptions\n    local -a response\n    (( ! $+commands[%(script_names)s] )) && return 1\n\n    response=(\"$\x7b(@f)$( env COMP_WORDS=\"$\x7bwords[*]\x7d\" \\\n                        COMP_CWORD=$((CURRENT-1)) \\\n                        %(autocomplete_var)s=\"complete_zsh\" \\\n                        %(script_names)s )\x7d\")\n\n    for key descr in $\x7b(kv)response\x7d; do\n      if [[ \"$descr\" == \"_\" ]]; then\n          completions+=(\"$key\")\n      else\n          completions_with_descriptions+=(\"$key\":\"$descr\")\n      fi\n    done\n\n    if [ -n \"$completions_with_descriptions\" ]; then\n        _describe -V unsorted completions_with_descriptions -U\n    fi\n\n    if [ -n \"$completions\" ]; then\n        compadd -U -V unsorted -a completions\n    fi\n    compstate[insert]=\"automenu\"\n\x7d\n\ncompdef %(complete_func)s %(script_names)s\n"

/-- The fish activation-script template (`shell_completion.py` lines
89-112). -/
def COMPLETION_SCRIPT_FISH : String :=
  "\nfunction %(complete_func)s_complete;\n    set -l response;\n    for value in (env %(autocomplete_var)s=complete_fish         COMP_WORDS=(commandline -cp) COMP_CWORD=(commandline -t)         %(script_names)s);\n        set response $response $value;\n    end;\n\n    for completion in $response;\n        set -l metadata (string split \",\" $completion);\n        if test $metadata[1] = \"dir\";\n            __fish_complete_directories $metadata[2];\n        else if test $metadata[1] = \"file\";\n            __fish_complete_path $metadata[2];\n        else if test $metadata[1] = \"none\";\n            echo $metadata[2];\n        end;\n    end;\nend;\n\ncomplete --no-files --command %(script_names)s --arguments     \"(%(complete_func)s_complete)\"\n"

/-- The `ShellComplete` base class: both `source` and `complete` raise
`NotImplementedError`. -/
def ShellCompleteBase : CompletionCls :=
  { base_chain := ["object"], src_template := none,
    src_checks_bash_version := false, cmpl_implemented := false }

/-- `BashComplete`: extends `ShellComplete`; `source` raises for bash
older than 4.4, otherwise returns the bash template. -/
def BashCompleteCls : CompletionCls :=
  { base_chain := ["ShellComplete", "object"],
    src_template := some COMPLETION_SCRIPT_BASH,
    src_checks_bash_version := true, cmpl_implemented := true }

/-- `ZshComplete`: extends `ShellComplete`. -/
def ZshCompleteCls : CompletionCls :=
  { base_chain := ["ShellComplete", "object"],
    src_template := some COMPLETION_SCRIPT_ZSH,
    src_checks_bash_version := false, cmpl_implemented := true }

/-- `FishComplete`: extends `ShellComplete`. -/
def FishCompleteCls : CompletionCls :=
  { base_chain := ["ShellComplete", "object"],
    src_template := some COMPLETION_SCRIPT_FISH,
    src_checks_bash_version := false, cmpl_implemented := true }

/-- The initial `available_shells` registry (an insertion-ordered
dictionary, modelled as an association list). -/
def available_shells : List (String × CompletionCls) :=
  [("bash", BashCompleteCls), ("fish", FishCompleteCls), ("zsh", ZshCompleteCls)]

/-- Python dictionary assignment `d[k] = v`: replace the value in place
when the key exists, append otherwise. -/
def dict_set (reg : List (String × CompletionCls)) (k : String) (v : CompletionCls) :
    List (String × CompletionCls) :=
  if (reg.lookup k).isSome then
    reg.map (fun p => if p.1 == k then (k, v) else p)
  else reg ++ [(k, v)]

/-- `add_completion_class(name, completion_class)`: raise unless the
class's *direct* base (`__base__`) is `ShellComplete`, otherwise store it
in `available_shells` under `name`.  The result is the updated registry,
or the raised error (in which case the registry is unchanged — the check
precedes the mutation). -/
def add_completion_class (reg : List (String × CompletionCls)) (name : String)
    (completion_class : CompletionCls) : Except String (List (String × CompletionCls)) :=
  if completion_class.base_chain.head? != some "ShellComplete" then
    Except.error "Completion class must extend `ShellComplete`"
  else
    Except.ok (dict_set reg name completion_class)

/-- The spec-level notion of "the class extends `ShellComplete`"
(`issubclass`-style: `ShellComplete` occurs anywhere in the base chain).
This definition follows the claim's words, for comparison with
`add_completion_class`'s actual check. -/
def cls_extends_shell_complete (c : CompletionCls) : Bool :=
  c.base_chain.contains "ShellComplete"

/-- `get_completion_source(shell)`: look the shell up in the registry,
defaulting to the `ShellComplete` base class. -/
def get_completion_source (reg : List (String × CompletionCls)) (shell : String) :
    CompletionCls :=
  (reg.lookup shell).getD ShellCompleteBase

/-- The `source()` method of a completion class: `NotImplementedError`
for the base class; `BashComplete` raises when the externally probed bash
version is older than 4.4 (the probe's outcome is the `bash_too_old`
parameter); otherwise the class's script template. -/
def cls_source (bash_too_old : Bool) (c : CompletionCls) : Except String String :=
  match c.src_template with
  | none => Except.error "NotImplementedError: source function needs to be overridden"
  | some t =>
      if c.src_checks_bash_version && bash_too_old then
        Except.error "Shell completion is not supported for bash versions older than 4.4"
      else Except.ok t

/-- `prog_name.replace("-", "_")`. -/
def py_replace_dash (s : String) : String :=
  String.mk (s.data.map (fun c => if c == '-' then '_' else c))

/-- `_invalid_ident_char_re.sub("", ...)`: every character outside
`[a-zA-Z0-9_]` removed. -/
def invalid_ident_char_sub (s : String) : String :=
  String.mk (s.data.filter (fun c => c.isAlphanum || c == '_'))

/-- The ASCII whitespace `str.strip()` removes. -/
def py_isspace (c : Char) : Bool :=
  c == ' ' || c == '\t' || c == '\n' || c == '\r' || c == '\x0b' || c == '\x0c'

/-- Python `str.strip()`: whitespace removed from both ends. -/
def py_strip (s : String) : String :=
  String.mk (((s.data.dropWhile py_isspace).reverse.dropWhile py_isspace).reverse)

/-- The scanner state of Python's `%`-formatting against a mapping:
outside any format spec; right after a `%`; inside a parenthesised key
(with the parenthesis nesting depth and the characters read so far); or
after the key, expecting the conversion character. -/
inductive FmtState where
  | normal
  | afterPercent
  | inKey (depth : Nat) (acc : List Char)
  | afterKey (key : List Char)

/-- `template % mapping` for the format specs the repository's templates
use: `%(key)s` substitutes the mapped string and `%%` yields a literal
`%`; an unknown key raises `KeyError` and an incomplete or other spec
raises `ValueError`, as Python does.  (Python's optional
flags/width/precision modifiers and non-`s` conversions appear in no
template of the repository; they are conservatively sent to the
`ValueError` path.) -/
def py_percent_format (mapping : List (String × String)) :
    FmtState → List Char → Except String (List Char)
  | FmtState.normal, [] => Except.ok []
  | FmtState.normal, c :: rest =>
      if c == '%' then py_percent_format mapping FmtState.afterPercent rest
      else (py_percent_format mapping FmtState.normal rest).map (fun t => c :: t)
  | FmtState.afterPercent, [] => Except.error "ValueError: incomplete format"
  | FmtState.afterPercent, c :: rest =>
      if c == '%' then
        (py_percent_format mapping FmtState.normal rest).map (fun t => '%' :: t)
      else if c == '(' then py_percent_format mapping (FmtState.inKey 0 []) rest
      else Except.error "ValueError: unsupported format character"
  | FmtState.inKey _ _, [] => Except.error "ValueError: incomplete format key"
  | FmtState.inKey depth acc, c :: rest =>
      if c == ')' then
        match depth with
        | 0 => py_percent_format mapping (FmtState.afterKey acc.reverse) rest
        | d + 1 => py_percent_format mapping (FmtState.inKey d (c :: acc)) rest
      else if c == '(' then
        py_percent_format mapping (FmtState.inKey (depth + 1) (c :: acc)) rest
      else py_percent_format mapping (FmtState.inKey depth (c :: acc)) rest
  | FmtState.afterKey _, [] => Except.error "ValueError: incomplete format"
  | FmtState.afterKey key, c :: rest =>
      if c == 's' then
        match mapping.lookup (String.mk key) with
        | some v =>
            (py_percent_format mapping FmtState.normal rest).map
              (fun t => v.data ++ t)
        | none => Except.error ("KeyError: " ++ String.mk key)
      else Except.error "ValueError: unsupported format character"

/-- `get_completion_script(cli, prog_name, complete_var, shell)`
(`shell_completion.py` lines 275-296): sanitize the program name into the
completion function's identifier, resolve the adapter class, call its
`source()`, `%`-format the returned template with `complete_func`,
`script_names` and `autocomplete_var`, strip the result and append
`;`. -/
def get_completion_script (bash_too_old : Bool) (reg : List (String × CompletionCls))
    (prog_name complete_var shell : String) : Except String String :=
  let cf_name := invalid_ident_char_sub (py_replace_dash prog_name)
  match cls_source bash_too_old (get_completion_source reg shell) with
  | Except.error e => Except.error e
  | Except.ok t =>
      match py_percent_format
          [("complete_func", "_" ++ cf_name ++ "_completion"),
           ("script_names", prog_name),
           ("autocomplete_var", complete_var)]
          FmtState.normal t.data with
      | Except.error e => Except.error e
      | Except.ok cs => Except.ok (py_strip (String.mk cs) ++ ";")

/-- `complete_instr.split("_", 1)`: the part before the first underscore
and everything after it. -/
def py_split_underscore_once (s : String) : String × String :=
  match s.data.dropWhile (fun c => c != '_') with
  | [] => (s, "")
  | _ :: t => (String.mk (s.data.takeWhile (fun c => c != '_')), String.mk t)

/-- The instruction parse at the top of `shell_complete`: split at the
first underscore into command and shell, defaulting the shell to
`"bash"` when no underscore is present. -/
def shell_instr_split (complete_instr : String) : String × String :=
  if complete_instr.data.contains '_' then py_split_underscore_once complete_instr
  else (complete_instr, "bash")

/-- `shell_complete(cli, prog_name, complete_var, complete_instr)`.  The
result is the raised error, or the returned success flag paired with the
lines echoed to standard output.  The `complete` path reads the shell's
environment and echoes serialized candidates (external I/O); those
emissions enter as the `complete_emissions` parameter, and a registered
adapter's `complete()` ends with `return True` while the base class
raises `NotImplementedError`. -/
def shell_complete (reg : List (String × CompletionCls)) (bash_too_old : Bool)
    (complete_emissions : List String) (prog_name complete_var complete_instr : String) :
    Except String (Bool × List String) :=
  let cs := shell_instr_split complete_instr
  if cs.1 == "source" then
    match get_completion_script bash_too_old reg prog_name complete_var cs.2 with
    | Except.ok script => Except.ok (true, [script])
    | Except.error e => Except.error e
  else if cs.1 == "complete" then
    if (get_completion_source reg cs.2).cmpl_implemented then
      Except.ok (true, complete_emissions)
    else Except.error "NotImplementedError: complete function needs to be overridden"
  else Except.ok (false, [])

/-! ## Helper lemmas -/

/-- The overwrite-scan of `is_incomplete_option` keeps the *last* match:
folding over `l` equals finding the first match of the reversed list. -/
theorem foldl_overwrite_eq_find_rev (q : String → Bool) :
    ∀ (l : List String) (init : Option String),
      l.foldl (fun acc a => if q a then some a else acc) init
        = (l.reverse.find? q).or init := by
  intro l
  induction l with
  | nil => intro init; simp
  | cons a l ih =>
    intro init
    rw [List.foldl_cons, ih, List.reverse_cons, List.find?_append]
    cases h : l.reverse.find? q with
    | none =>
        cases hq : q a <;> simp [List.find?, hq, Option.or]
    | some x => simp [Option.or]

theorem char_toNat_inj {a b : Char} (h : a.toNat = b.toNat) : a = b :=
  Char.ext (UInt32.ext h)

theorem charListLEb_total : ∀ as bs, charListLEb as bs = true ∨ charListLEb bs as = true
  | [], bs => Or.inl (by cases bs <;> rfl)
  | a :: as, [] => Or.inr rfl
  | a :: as, b :: bs => by
      by_cases h : a = b
      · subst h
        have := charListLEb_total as bs
        simpa [charListLEb] using this
      · rcases Nat.lt_trichotomy a.toNat b.toNat with hl | he | hg
        · exact Or.inl (by simp [charListLEb, h, charLTb, hl])
        · exact absurd (char_toNat_inj he) h
        · exact Or.inr (by simp [charListLEb, Ne.symm h, charLTb, hg])

theorem charListLEb_antisymm :
    ∀ as bs, charListLEb as bs = true → charListLEb bs as = true → as = bs
  | [], [], _, _ => rfl
  | [], _ :: _, _, h2 => by simp [charListLEb] at h2
  | _ :: _, [], h1, _ => by simp [charListLEb] at h1
  | a :: as, b :: bs, h1, h2 => by
      by_cases h : a = b
      · subst h
        simp only [charListLEb, if_pos rfl] at h1 h2
        rw [charListLEb_antisymm as bs h1 h2]
      · simp only [charListLEb, if_neg h, if_neg (Ne.symm h), charLTb,
          decide_eq_true_eq] at h1 h2
        omega

theorem charListLEb_trans :
    ∀ as bs cs, charListLEb as bs = true → charListLEb bs cs = true →
      charListLEb as cs = true
  | [], _, cs, _, _ => by cases cs <;> rfl
  | _ :: _, [], _, h1, _ => by simp [charListLEb] at h1
  | _ :: _, _ :: _, [], _, h2 => by simp [charListLEb] at h2
  | a :: as, b :: bs, c :: cs, h1, h2 => by
      by_cases hab : a = b <;> by_cases hbc : b = c
      · subst hab; subst hbc
        simp only [charListLEb, if_pos rfl] at h1 h2 ⊢
        exact charListLEb_trans as bs cs h1 h2
      · subst hab
        simp only [charListLEb, if_neg hbc] at h2 ⊢
        exact h2
      · subst hbc
        simp only [charListLEb, if_neg hab] at h1 ⊢
        exact h1
      · by_cases hac : a = c
        · subst hac
          simp only [charListLEb, if_neg hab, if_neg hbc, charLTb,
            decide_eq_true_eq] at h1 h2
          omega
        · simp only [charListLEb, if_neg hab, if_neg hbc, if_neg hac, charLTb,
            decide_eq_true_eq] at h1 h2 ⊢
          omega

theorem descLEb_total : ∀ x y, descLEb x y = true ∨ descLEb y x = true
  | none, _ => Or.inl rfl
  | some _, none => Or.inr rfl
  | some a, some b => charListLEb_total a.data b.data

theorem descLEb_trans :
    ∀ x y z, descLEb x y = true → descLEb y z = true → descLEb x z = true
  | none, _, _, _, _ => rfl
  | some _, none, _, h1, _ => by simp [descLEb] at h1
  | some _, some _, none, _, h2 => by simp [descLEb] at h2
  | some a, some b, some c, h1, h2 => charListLEb_trans a.data b.data c.data h1 h2

theorem string_data_inj {s t : String} (h : s.data = t.data) : s = t :=
  congrArg String.mk h

theorem candLEb_total (a b : Candidate) : candLEb a b = true ∨ candLEb b a = true := by
  by_cases h : a.1 = b.1
  · simp only [candLEb, if_pos h, if_pos h.symm]
    exact descLEb_total a.2 b.2
  · simp only [candLEb, if_neg h, if_neg (Ne.symm h)]
    exact charListLEb_total a.1.data b.1.data

theorem candLEb_trans (a b c : Candidate) (h1 : candLEb a b = true)
    (h2 : candLEb b c = true) : candLEb a c = true := by
  by_cases hab : a.1 = b.1 <;> by_cases hbc : b.1 = c.1
  · have hac : a.1 = c.1 := hab.trans hbc
    rw [candLEb, if_pos hab] at h1
    rw [candLEb, if_pos hbc] at h2
    rw [candLEb, if_pos hac]
    exact descLEb_trans a.2 b.2 c.2 h1 h2
  · have hac : a.1 ≠ c.1 := fun h => hbc (hab ▸ h)
    rw [candLEb, if_neg hbc] at h2
    rw [candLEb, if_neg hac, hab]
    exact h2
  · have hac : a.1 ≠ c.1 := fun h => hab (h.trans hbc.symm)
    rw [candLEb, if_neg hab] at h1
    rw [candLEb, if_neg hac, ← hbc]
    exact h1
  · rw [candLEb, if_neg hab] at h1
    rw [candLEb, if_neg hbc] at h2
    by_cases hac : a.1 = c.1
    · exfalso
      have hdata : a.1.data = b.1.data :=
        charListLEb_antisymm a.1.data b.1.data h1 (hac ▸ h2)
      exact hab (string_data_inj hdata)
    · rw [candLEb, if_neg hac]
      exact charListLEb_trans a.1.data b.1.data c.1.data h1 h2

instance : IsTotal Candidate (fun a b => candLEb a b = true) := ⟨candLEb_total⟩

instance : IsTrans Candidate (fun a b => candLEb a b = true) := ⟨candLEb_trans⟩

/-- The output of the modelled `sorted(...)` is sorted (weakly, by the
full tuple order). -/
theorem py_sorted_sorted (l : List Candidate) :
    List.Pairwise (fun a b => candLEb a b = true) (py_sorted l) :=
  List.sorted_insertionSort (fun a b => candLEb a b = true) l

/-- The output of the modelled `sorted(...)` is a permutation of its
input. -/
theorem py_sorted_perm (l : List Candidate) : List.Perm (py_sorted l) l :=
  List.perm_insertionSort (fun a b => candLEb a b = true) l

/-! ## Claim C1 -/

/-- A non-flag Option with `nargs = 2` accepting only the spelling `-b`,
used to separate the two tie-break readings of `is_incomplete_option`. -/
def pC1ex : Param :=
  { kind := ParamKind.option, name := "b", opts := ["-b"], secondary_opts := [],
    nargs := 2, is_flag := false, multiple := false, hidden := false, help := none,
    ptype := ParamType.other, autocompletion := none }

/-- C1, counterexample.  On `all_args = ["-a", "-b"]` and a non-flag
Option with `nargs = 2` and `opts = ["-b"]`, the claim's reading (the
most recent / nearest-to-the-end flag-like token in the window, here
`"-b"`, decides) yields `true`, but `is_incomplete_option` returns
`false`: its scan overwrites `last_option` while walking the reversed
window, so the flag-like token *farthest* from the end (`"-a"`) is the
one tested against `opts`. -/
theorem C1_counterexample :
    claim_is_incomplete_option ["-a", "-b"] pC1ex = true ∧
      is_incomplete_option ["-a", "-b"] pC1ex = false :=
  ⟨by decide, by decide⟩

/-- C1, amended.  For every argument list and parameter,
`is_incomplete_option` returns `true` iff the parameter is a non-flag
Option and, among the last `nargs` tokens of the list after removing
every `"="` token, there is at least one flag-like token and the
*earliest* such token of that window in original order (the one farthest
from the end of the list, i.e. the last one assigned while the code scans
the reversed window) is one of the parameter's `opts`; it returns `false`
for every parameter that is not an Option or that is a flag. -/
theorem C1_amended (all_args : List String) (cmd_param : Param) :
    is_incomplete_option all_args cmd_param =
      (decide (cmd_param.kind = ParamKind.option) && !cmd_param.is_flag &&
        (match ((((all_args.filter (fun a => a != WORDBREAK)).reverse).take
            cmd_param.nargs.toNat).reverse).find? (fun a => start_of_option a) with
         | some o => cmd_param.opts.contains o
         | none => false)) := by
  unfold is_incomplete_option
  by_cases hk : cmd_param.kind = ParamKind.option
  · cases hf : cmd_param.is_flag
    · simp only [hk, bne_self_eq_false, Bool.false_eq_true, if_false, hf,
        foldl_overwrite_eq_find_rev, Option.or_none, decide_True, Bool.not_false,
        Bool.true_and]
    · simp [hk, hf]
  · have : (cmd_param.kind != ParamKind.option) = true := by
      simp [bne_iff_ne, hk]
    simp [this, hk]

/-! ## Claim C2 -/

/-- Reflexivity of the string comparison. -/
theorem charListLEb_refl : ∀ as, charListLEb as as = true
  | [] => rfl
  | _ :: as => by simp [charListLEb, charListLEb_refl as]

/-- The tuple order implies the display-value order. -/
theorem candLEb_imp_value_le (a b : Candidate) (h : candLEb a b = true) :
    charListLEb a.1.data b.1.data = true := by
  by_cases hab : a.1 = b.1
  · rw [hab]; exact charListLEb_refl b.1.data
  · rw [candLEb, if_neg hab] at h; exact h

/-- The candidate list described by the claim for the fall-through
subcommand-name case, before sorting: the active Container's visible
prefix-matching children paired with their short help, together with, for
every chained Container ancestor, its visible prefix-matching children
not excluded by that ancestor's `protected_args`.  This definition
follows the claim's words (without its de-duplication step), for
comparison with the translated code. -/
def spec_subcommand_union (ctx : Ctx) (incomplete : String) : List Candidate :=
  (if ctx.command.isMultiCommand then
      (get_visible_commands_starting_with ctx.frame incomplete).map
        (fun c => ((c.name, some c.short_help) : Candidate))
    else [])
  ++ ctx.parents.flatMap (fun a =>
      if a.command.isMultiCommand && a.command.chain then
        ((get_visible_commands_starting_with a incomplete).filter
            (fun k => !(a.protected_args.contains k.name))).map
          (fun k => ((k.name, some k.short_help) : Candidate))
      else [])

theorem add_subcommand_eq_spec_union (ctx : Ctx) (incomplete : String) :
    add_subcommand_completions ctx incomplete = spec_subcommand_union ctx incomplete := rfl

/-- An interpretation environment with no user callbacks (no parameter of
the concrete examples refers to one). -/
def interp0 : Nat → Ctx → List String → String → List DynResult := fun _ _ _ _ => []

/-- A non-chained subgroup with a visible child `x`, nested (as resolved
context) under a chained group that also has a visible child named `x`. -/
def ctxC2ex : Ctx :=
  { frame := { command := Cmd.multi "sub" [] false "" false [Cmd.leaf "x" [] false "hx"],
               params := fun _ => PValue.pnone, protected_args := [], args := [] },
    parents := [{ command := Cmd.multi "root" [] false "" true [Cmd.leaf "x" [] false "hy"],
                  params := fun _ => PValue.pnone, protected_args := [], args := [] }] }

/-- C2, counterexample.  A completion request that falls through to
subcommand-name completion where the active Container has a visible child
`x` and a chained ancestor also offers a visible child `x`: the returned
sequence keeps both entries with display value `"x"`, so the result is
*not* de-duplicated by display value as the claim states. -/
theorem C2_counterexample :
    get_choices_from_ctx interp0 ctxC2ex [] "" = [("x", some "hx"), ("x", some "hy")] ∧
      (get_choices_from_ctx interp0 ctxC2ex [] "").map Prod.fst = ["x", "x"] :=
  ⟨by decide, by decide⟩

/-- C2, amended.  For every completion request that falls through to
subcommand-name completion (no option-name, open-option-value, or
open-argument-value case applies), the returned candidate sequence is the
concatenation — NOT de-duplicated — of the active Container's visible
children whose names start with the (word-break-normalized) incomplete
and the matching visible children of every chained ancestor (minus each
ancestor's protected args), sorted stably by display value (ties between
equal display values are ordered by description), each paired with its
short-help text. -/
theorem C2_amended (interp : Nat → Ctx → List String → String → List DynResult)
    (ctx : Ctx) (args : List String) (incomplete : String)
    (h1 : args.contains "--" = true ∨
      start_of_option (normalize_incomplete args incomplete).2 = false)
    (h2 : (ctx.command.get_params).find?
      (fun p => is_incomplete_option (normalize_incomplete args incomplete).1 p) = none)
    (h3 : (ctx.command.get_params).find?
      (fun p => is_incomplete_argument ctx.params p) = none) :
    get_choices_from_ctx interp ctx args incomplete
      = py_sorted (spec_subcommand_union ctx (normalize_incomplete args incomplete).2)
    ∧ List.Pairwise (fun a b : Candidate => charListLEb a.1.data b.1.data = true)
        (get_choices_from_ctx interp ctx args incomplete) := by
  have hbranch : (!(args.contains "--") && start_of_option
      (normalize_incomplete args incomplete).2) = false := by
    rcases h1 with h | h
    · rw [h]; rfl
    · rw [h, Bool.and_false]
  have hmain : get_choices_from_ctx interp ctx args incomplete
      = py_sorted (spec_subcommand_union ctx (normalize_incomplete args incomplete).2) := by
    unfold get_choices_from_ctx
    rw [← add_subcommand_eq_spec_union]
    simp only [hbranch, Bool.false_eq_true, if_false, h2, h3]
  refine ⟨hmain, ?_⟩
  rw [hmain]
  exact (py_sorted_sorted _).imp (fun h => candLEb_imp_value_le _ _ h)

/-- Witness for `C2_amended` at a concrete fall-through request: the
duplicate-free chained setup of `ctxC2ex` with empty args and empty
incomplete. -/
theorem C2_witness :
    get_choices_from_ctx interp0 ctxC2ex [] ""
      = py_sorted (spec_subcommand_union ctxC2ex (normalize_incomplete [] "").2)
    ∧ List.Pairwise (fun a b : Candidate => charListLEb a.1.data b.1.data = true)
        (get_choices_from_ctx interp0 ctxC2ex [] "") :=
  C2_amended interp0 ctxC2ex [] "" (Or.inr (by decide)) (by decide) (by decide)

/-! ## Claim C3 -/

/-- A required Choice argument followed (in the command tree) by
subcommands `asub` and `bsub`, with no value parsed yet. -/
def ctxC3ex : Ctx :=
  { frame := { command := Cmd.multi "cli"
                 [{ kind := ParamKind.argument, name := "cliarg", opts := [],
                    secondary_opts := [], nargs := 1, is_flag := false,
                    multiple := false, hidden := false, help := none,
                    ptype := ParamType.choice ["cliarg1", "cliarg2"],
                    autocompletion := none }] false "" false
                 [Cmd.leaf "asub" [] false "", Cmd.leaf "bsub" [] false ""],
               params := fun _ => PValue.pnone, protected_args := [], args := [] },
    parents := [] }

/-- A command with a single visible option `--x`, used to instantiate the
option-name branch. -/
def ctxC3opt : Ctx :=
  { frame := { command := Cmd.leaf "cli"
                 [{ kind := ParamKind.option, name := "x", opts := ["--x"],
                    secondary_opts := [], nargs := 1, is_flag := false,
                    multiple := false, hidden := false, help := none,
                    ptype := ParamType.other, autocompletion := none }] false "",
               params := fun _ => PValue.pnone, protected_args := [], args := [] },
    parents := [] }

/-- C3.  Classification follows a strict priority order with immediate
return: with no `--` sentinel in the args and a (word-break-normalized)
incomplete that starts an option, only option-name candidates are
returned; otherwise, if the first parameter in declaration order for
which `is_incomplete_option` holds exists (necessarily an Option), only
that option's value candidates are returned; otherwise, if the first
parameter for which `is_incomplete_argument` holds exists (necessarily an
Argument), only that argument's value candidates are returned; otherwise
subcommand-name candidates are returned.  In particular (last conjunct),
an open required choice Argument's values are completed before
subcommand names. -/
theorem C3_priority (interp : Nat → Ctx → List String → String → List DynResult)
    (ctx : Ctx) (args : List String) (incomplete : String) :
    ((args.contains "--" = false →
        start_of_option (normalize_incomplete args incomplete).2 = true →
        get_choices_from_ctx interp ctx args incomplete
          = option_name_completions ctx (normalize_incomplete args incomplete).1
              (normalize_incomplete args incomplete).2)
      ∧ ((args.contains "--" = true ∨
            start_of_option (normalize_incomplete args incomplete).2 = false) →
          ∀ p, (ctx.command.get_params).find?
              (fun q => is_incomplete_option (normalize_incomplete args incomplete).1 q)
              = some p →
            get_choices_from_ctx interp ctx args incomplete
              = get_user_autocompletions interp ctx
                  (normalize_incomplete args incomplete).1
                  (normalize_incomplete args incomplete).2 p)
      ∧ ((args.contains "--" = true ∨
            start_of_option (normalize_incomplete args incomplete).2 = false) →
          (ctx.command.get_params).find?
              (fun q => is_incomplete_option (normalize_incomplete args incomplete).1 q)
              = none →
          ∀ p, (ctx.command.get_params).find?
              (fun q => is_incomplete_argument ctx.params q) = some p →
            get_choices_from_ctx interp ctx args incomplete
              = get_user_autocompletions interp ctx
                  (normalize_incomplete args incomplete).1
                  (normalize_incomplete args incomplete).2 p)
      ∧ ((args.contains "--" = true ∨
            start_of_option (normalize_incomplete args incomplete).2 = false) →
          (ctx.command.get_params).find?
              (fun q => is_incomplete_option (normalize_incomplete args incomplete).1 q)
              = none →
          (ctx.command.get_params).find?
              (fun q => is_incomplete_argument ctx.params q) = none →
          get_choices_from_ctx interp ctx args incomplete
            = py_sorted (add_subcommand_completions ctx
                (normalize_incomplete args incomplete).2)))
    ∧ get_choices_from_ctx interp0 ctxC3ex [] ""
        = [("cliarg1", none), ("cliarg2", none)] := by
  refine ⟨⟨?_, ?_, ?_, ?_⟩, by decide⟩
  · intro hdd hso
    unfold get_choices_from_ctx
    simp only [hdd, hso, Bool.not_false, Bool.true_and, if_true]
  · intro h1 p hp
    have hbranch : (!(args.contains "--") && start_of_option
        (normalize_incomplete args incomplete).2) = false := by
      rcases h1 with h | h
      · rw [h]; rfl
      · rw [h, Bool.and_false]
    unfold get_choices_from_ctx
    simp only [hbranch, Bool.false_eq_true, if_false, hp]
  · intro h1 hopt p hp
    have hbranch : (!(args.contains "--") && start_of_option
        (normalize_incomplete args incomplete).2) = false := by
      rcases h1 with h | h
      · rw [h]; rfl
      · rw [h, Bool.and_false]
    unfold get_choices_from_ctx
    simp only [hbranch, Bool.false_eq_true, if_false, hopt, hp]
  · intro h1 hopt harg
    have hbranch : (!(args.contains "--") && start_of_option
        (normalize_incomplete args incomplete).2) = false := by
      rcases h1 with h | h
      · rw [h]; rfl
      · rw [h, Bool.and_false]
    unfold get_choices_from_ctx
    simp only [hbranch, Bool.false_eq_true, if_false, hopt, harg]

/-- Witness for `C3_priority`: the option-name branch at a concrete
request (`args = []`, `incomplete = "-"`, one visible option `--x`). -/
theorem C3_witness :
    get_choices_from_ctx interp0 ctxC3opt [] "-"
      = option_name_completions ctxC3opt (normalize_incomplete [] "-").1
          (normalize_incomplete [] "-").2 :=
  (C3_priority interp0 ctxC3opt [] "-").1.1 (by decide) (by decide)

/-! ## Claim C4 -/

/-- When the incomplete token contains no `=` (and hence is not the bare
word-break), the normalization step leaves the request unchanged. -/
theorem normalize_id (args : List String) (incomplete : String)
    (hne : incomplete.data.contains '=' = false) :
    normalize_incomplete args incomplete = (args, incomplete) := by
  have h1 : (start_of_option incomplete && incomplete.data.contains '=') = false := by
    rw [hne, Bool.and_false]
  have h2 : (incomplete == WORDBREAK) = false := by
    cases heq : incomplete == WORDBREAK with
    | false => rfl
    | true =>
        exfalso
        have : incomplete = WORDBREAK := by exact eq_of_beq heq
        rw [this] at hne
        exact absurd hne (by decide)
  unfold normalize_incomplete
  rw [h1, h2]
  simp

/-- C4.  When no `--` sentinel appears in the args and `incomplete`
starts with `-` (and contains no word-break `=`), the candidate list
consists exactly of, for each visible (non-hidden) Option of the active
command in declaration order, those of its spellings (`opts` plus
`secondary_opts`) that start with `incomplete` and that either do not
already occur in the args or belong to an Option declared `multiple`,
each paired with that option's help text; hidden options and
non-Options contribute no candidates. -/
theorem C4_option_names (interp : Nat → Ctx → List String → String → List DynResult)
    (ctx : Ctx) (args : List String) (incomplete : String)
    (hdd : args.contains "--" = false)
    (hso : start_of_option incomplete = true)
    (hne : incomplete.data.contains '=' = false) :
    get_choices_from_ctx interp ctx args incomplete
      = (ctx.command.get_params).flatMap (fun p =>
          if decide (p.kind = ParamKind.option) && !p.hidden then
            ((p.opts ++ p.secondary_opts).filter
                (fun o => str_isPrefixOf incomplete o &&
                  (!(args.contains o) || p.multiple))).map
              (fun o => ((o, p.help) : Candidate))
          else []) := by
  have hnorm := normalize_id args incomplete hne
  unfold get_choices_from_ctx
  simp only [hnorm, hdd, hso, Bool.not_false, Bool.true_and, if_true]
  unfold option_name_completions
  congr 1
  funext p
  by_cases hp : (decide (p.kind = ParamKind.option) && !p.hidden) = true
  · simp only [hp, if_true, List.filter_filter]
  · simp only [Bool.not_eq_true] at hp
    simp only [hp, Bool.false_eq_true, if_false]

/-- An Option with two spellings `--foo` / `-f`, not `multiple`. -/
def ctxFooF : Ctx :=
  { frame := { command := Cmd.leaf "cli"
                 [{ kind := ParamKind.option, name := "foo", opts := ["--foo", "-f"],
                    secondary_opts := [], nargs := 1, is_flag := false,
                    multiple := false, hidden := false, help := some "foo help",
                    ptype := ParamType.other, autocompletion := none }] false "",
               params := fun _ => PValue.pnone, protected_args := [], args := [] },
    parents := [] }

/-- Witness for `C4_option_names` at a concrete request: `-f` already
supplied, completing `--`. -/
theorem C4_witness :
    get_choices_from_ctx interp0 ctxFooF ["-f"] "--"
      = (ctxFooF.command.get_params).flatMap (fun p =>
          if decide (p.kind = ParamKind.option) && !p.hidden then
            ((p.opts ++ p.secondary_opts).filter
                (fun o => str_isPrefixOf "--" o &&
                  (!((["-f"] : List String).contains o) || p.multiple))).map
              (fun o => ((o, p.help) : Candidate))
          else []) :=
  C4_option_names interp0 ctxFooF ["-f"] "--" (by decide) (by decide) (by decide)

/-! ## Claim C10 -/

/-- C10.  In option-name completion an already-supplied option spelling
excludes only that exact spelling: every spelling `o` of a visible Option
that is itself absent from the args and matches the incomplete prefix is
offered (with the option's help text), regardless of whether other
spellings of the same option occur in the args and regardless of
`multiple`. -/
theorem C10_other_spellings (ctx : Ctx) (args : List String) (incomplete : String)
    (p : Param) (o : String)
    (hp : p ∈ ctx.command.get_params)
    (hkind : p.kind = ParamKind.option)
    (hhid : p.hidden = false)
    (ho : o ∈ p.opts ++ p.secondary_opts)
    (habsent : args.contains o = false)
    (hpre : str_isPrefixOf incomplete o = true) :
    ((o, p.help) : Candidate) ∈ option_name_completions ctx args incomplete := by
  unfold option_name_completions
  rw [List.mem_flatMap]
  refine ⟨p, hp, ?_⟩
  rw [hkind, hhid]
  simp only [decide_True, Bool.not_false, Bool.and_self, if_true]
  rw [List.mem_map]
  refine ⟨o, ?_, rfl⟩
  rw [List.mem_filter, List.mem_filter]
  refine ⟨⟨ho, ?_⟩, hpre⟩
  rw [habsent]
  rfl

/-- Witness for `C10_other_spellings`: with `-f` (one spelling of
`--foo`/`-f`, an option that is not `multiple`) already in the args, the
sibling spelling `--foo` is still offered for the prefix `--`. -/
theorem C10_witness :
    (("--foo", some "foo help") : Candidate)
      ∈ option_name_completions ctxFooF ["-f"] "--" :=
  C10_other_spellings ctxFooF ["-f"] "--"
    { kind := ParamKind.option, name := "foo", opts := ["--foo", "-f"],
      secondary_opts := [], nargs := 1, is_flag := false, multiple := false,
      hidden := false, help := some "foo help", ptype := ParamType.other,
      autocompletion := none } "--foo"
    (by decide) rfl rfl (by decide) (by decide) (by decide)

/-! ## Claim C5 -/

/-- Membership in one ancestor frame's contribution to the parent-chain
walk. -/
theorem mem_chain_contribution (inc : String) (a : CtxFrame) (n : String)
    (h : Option String) :
    ((n, h) : Candidate) ∈ chain_contribution inc a ↔
      (a.command.isMultiCommand = true ∧ a.command.chain = true ∧
        ∃ c ∈ get_visible_commands_starting_with a inc,
          a.protected_args.contains c.name = false ∧ n = c.name ∧
            h = some c.short_help) := by
  unfold chain_contribution
  by_cases hm : (a.command.isMultiCommand && a.command.chain) = true
  · obtain ⟨h1, h2⟩ := Bool.and_eq_true_iff.mp hm
    rw [if_pos hm]
    simp only [List.mem_map, List.mem_filter]
    constructor
    · rintro ⟨c, ⟨hc, hprot⟩, heq⟩
      obtain ⟨hn, hh⟩ := Prod.mk.injEq .. ▸ heq
      exact ⟨h1, h2, c, hc, by
        cases hcon : a.protected_args.contains c.name
        · rfl
        · rw [hcon] at hprot; exact absurd hprot (by decide), hn.symm, hh.symm⟩
    · rintro ⟨_, _, c, hc, hprot, hn, hh⟩
      exact ⟨c, ⟨hc, by rw [hprot]; rfl⟩, by rw [hn, hh]⟩
  · rw [if_neg hm]
    simp only [List.not_mem_nil, false_iff]
    rintro ⟨h1, h2, -⟩
    exact hm (by rw [h1, h2]; rfl)

/-- A chained group with children `a` and `b` whose context has already
consumed (protected) the name `a`. -/
def gframeC5 : CtxFrame :=
  { command := Cmd.multi "g" [] false "" true
      [Cmd.leaf "a" [] false "ha", Cmd.leaf "b" [] false "hb"],
    params := fun _ => PValue.pnone, protected_args := ["a"], args := [] }

/-- C5.  The parent-chain walk of subcommand-name completion offers
exactly, for every ancestor context whose command is a chained Container,
that ancestor's visible children whose names start with the incomplete,
excluding precisely those children whose name appears in that ancestor
context's protected args — siblings of already-resolved children are not
excluded merely for being siblings (exclusion happens only through
`protected_args` membership).  The closing conjunct shows a concrete
chained parent with resolved child `a`: sibling `b` remains completable
while the consumed name `a` is excluded. -/
theorem C5_chained_ancestors :
    (∀ (ctx : Ctx) (incomplete : String) (n : String) (h : Option String),
      ((n, h) : Candidate) ∈ chained_completions incomplete ctx.parents ↔
        ∃ a ∈ ctx.parents, a.command.isMultiCommand = true ∧
          a.command.chain = true ∧
          ∃ c ∈ get_visible_commands_starting_with a incomplete,
            a.protected_args.contains c.name = false ∧ n = c.name ∧
              h = some c.short_help)
    ∧ chained_completions "" [gframeC5] = [("b", some "hb")] := by
  constructor
  · intro ctx incomplete n h
    unfold chained_completions
    rw [List.mem_flatMap]
    constructor
    · rintro ⟨a, ha, hmem⟩
      exact ⟨a, ha, (mem_chain_contribution incomplete a n h).mp hmem⟩
    · rintro ⟨a, ha, hbody⟩
      exact ⟨a, ha, (mem_chain_contribution incomplete a n h).mpr hbody⟩
  · decide

/-! ## Claim C6 -/

theorem contains_append_right (l : List String) (x a : String) :
    (l ++ [x]).contains a = (l.contains a || a == x) := by
  induction l with
  | nil =>
      simp only [List.nil_append, List.contains_cons, List.contains_nil,
        Bool.or_false, Bool.false_or]
  | cons b l ih =>
      simp only [List.cons_append, List.contains_cons] at *
      rw [ih, Bool.or_assoc]

/-- A command with one non-flag option `--alpha` and no other
parameters. -/
def ctxC6cex : Ctx :=
  { frame := { command := Cmd.leaf "cli"
                 [{ kind := ParamKind.option, name := "alpha", opts := ["--alpha"],
                    secondary_opts := [], nargs := 1, is_flag := false,
                    multiple := false, hidden := false, help := none,
                    ptype := ParamType.other, autocompletion := none }] false "",
               params := fun _ => PValue.pnone, protected_args := [], args := [] },
    parents := [] }

/-- C6, counterexample.  For `incomplete = "--=-"` (prefix `"--"` before
the first `=`, remainder `"-"`), completion does NOT behave as if `"--"`
had been appended to the token stream with `"-"` as the new incomplete:
the actual run still offers option names (the end-of-options check uses
the original args, which contain no `--`), while the as-if run suppresses
them (its args contain the `--` sentinel) and returns nothing. -/
theorem C6_counterexample :
    get_choices_from_ctx interp0 ctxC6cex [] "--=-" = [("--alpha", none)] ∧
      get_choices_from_ctx interp0 ctxC6cex ["--"] "-" = [] :=
  ⟨by decide, by decide⟩

/-- The concrete `--opt1=op` scenario: an option `--opt1` with choice set
`{opt11, opt12}`. -/
def ctxC6ex : Ctx :=
  { frame := { command := Cmd.leaf "cli"
                 [{ kind := ParamKind.option, name := "opt1", opts := ["--opt1"],
                    secondary_opts := [], nargs := 1, is_flag := false,
                    multiple := false, hidden := false, help := none,
                    ptype := ParamType.choice ["opt11", "opt12"],
                    autocompletion := none }] false "",
               params := fun _ => PValue.pnone, protected_args := [], args := [] },
    parents := [] }

/-- C6, amended.  For every incomplete string that starts with `-` and
contains `=`, the code appends the part before the first `=` to the token
stream and continues with the part after it as the new incomplete; this
coincides with running completion on the extended token stream provided
the part before `=` is not the `--` sentinel itself (the end-of-options
check inspects the original args) and the remainder would not itself be
rewritten (it is not exactly `=` and does not both start with `-` and
contain `=`).  An incomplete that is exactly `=` is treated as the empty
string (second conjunct), and `"--opt1=op"` against an option `--opt1`
with choices `{opt11, opt12}` yields the choices filtered by the prefix
`"op"` (third conjunct). -/
theorem C6_amended (interp : Nat → Ctx → List String → String → List DynResult)
    (ctx : Ctx) (args : List String) (incomplete : String)
    (hso : start_of_option incomplete = true)
    (hct : incomplete.data.contains '=' = true)
    (hpre : (py_partition_eq incomplete).1 ≠ "--")
    (hpost1 : (py_partition_eq incomplete).2 ≠ WORDBREAK)
    (hpost2 : ¬(start_of_option (py_partition_eq incomplete).2 = true ∧
      (py_partition_eq incomplete).2.data.contains '=' = true)) :
    (get_choices_from_ctx interp ctx args incomplete
      = get_choices_from_ctx interp ctx (args ++ [(py_partition_eq incomplete).1])
          (py_partition_eq incomplete).2)
    ∧ get_choices_from_ctx interp ctx args "="
        = get_choices_from_ctx interp ctx args ""
    ∧ get_choices_from_ctx interp0 ctxC6ex [] "--opt1=op"
        = [("opt11", none), ("opt12", none)] := by
  refine ⟨?_, ?_, by decide⟩
  · have hn1 : normalize_incomplete args incomplete
        = (args ++ [(py_partition_eq incomplete).1], (py_partition_eq incomplete).2) := by
      unfold normalize_incomplete
      rw [hso, hct]
      rfl
    have hn2 : normalize_incomplete (args ++ [(py_partition_eq incomplete).1])
        (py_partition_eq incomplete).2
        = (args ++ [(py_partition_eq incomplete).1], (py_partition_eq incomplete).2) := by
      have c1 : (start_of_option (py_partition_eq incomplete).2 &&
          (py_partition_eq incomplete).2.data.contains '=') = false := by
        cases hsp : start_of_option (py_partition_eq incomplete).2 with
        | false => rfl
        | true =>
            cases hcp : (py_partition_eq incomplete).2.data.contains '=' with
            | false => rw [Bool.and_false]
            | true => exact absurd ⟨hsp, hcp⟩ hpost2
      have c2 : ((py_partition_eq incomplete).2 == WORDBREAK) = false := by
        cases h : (py_partition_eq incomplete).2 == WORDBREAK with
        | false => rfl
        | true => exact absurd (eq_of_beq h) hpost1
      unfold normalize_incomplete
      rw [c1, c2]
      simp
    have hdd : (args ++ [(py_partition_eq incomplete).1]).contains "--"
        = args.contains "--" := by
      rw [contains_append_right]
      have : (("--" : String) == (py_partition_eq incomplete).1) = false := by
        cases h : ("--" : String) == (py_partition_eq incomplete).1 with
        | false => rfl
        | true => exact absurd (eq_of_beq h).symm hpre
      rw [this, Bool.or_false]
    unfold get_choices_from_ctx
    rw [hn1, hn2, hdd]
  · have c1 : (start_of_option "=" && ("=" : String).data.contains '=') = false := by
      decide
    have c2 : (("=" : String) == WORDBREAK) = true := by decide
    have c3 : (start_of_option "" && ("" : String).data.contains '=') = false := by
      decide
    have c4 : (("" : String) == WORDBREAK) = false := by decide
    have h1 : normalize_incomplete args "=" = (args, "") := by
      unfold normalize_incomplete
      rw [c1, c2]
      simp
    have h2 : normalize_incomplete args "" = (args, "") := by
      unfold normalize_incomplete
      rw [c3, c4]
      simp
    unfold get_choices_from_ctx
    rw [h1, h2]

/-- Witness for `C6_amended`: the concrete request `--opt1=op` behaves as
if `--opt1` had been appended with `op` as the incomplete. -/
theorem C6_witness :
    get_choices_from_ctx interp0 ctxC6ex [] "--opt1=op"
      = get_choices_from_ctx interp0 ctxC6ex ["--opt1"] "op" :=
  (C6_amended interp0 ctxC6ex [] "--opt1=op" (by decide) (by decide) (by decide)
    (by decide) (by decide)).1

/-! ## Claim C7 -/

/-- C7.  For a parameter selected for value completion: a fixed choice
set yields exactly the choices that start with the incomplete, in
declaration order, with no descriptions; otherwise a dynamic callback is
invoked with `(ctx, args, incomplete)` and its bare values are normalized
to `(value, none)` pairs while `(value, description)` pairs pass through
unchanged; otherwise (free text) there are no candidates. -/
theorem C7_value_candidates (interp : Nat → Ctx → List String → String → List DynResult)
    (ctx : Ctx) (args : List String) (incomplete : String) (p : Param) :
    (∀ cs, p.ptype = ParamType.choice cs →
        get_user_autocompletions interp ctx args incomplete p
          = (cs.filter (fun c => str_isPrefixOf incomplete c)).map
              (fun c => ((c, none) : Candidate)))
    ∧ (p.ptype = ParamType.other → ∀ cid, p.autocompletion = some cid →
        get_user_autocompletions interp ctx args incomplete p
          = (interp cid ctx args incomplete).map
              (fun r => match r with
                | DynResult.bare v => ((v, none) : Candidate)
                | DynResult.pair v d => (v, d)))
    ∧ (p.ptype = ParamType.other → p.autocompletion = none →
        get_user_autocompletions interp ctx args incomplete p = []) := by
  refine ⟨?_, ?_, ?_⟩
  · intro cs h
    unfold get_user_autocompletions
    rw [h]
  · intro h cid hc
    unfold get_user_autocompletions
    rw [h, hc]
  · intro h hc
    unfold get_user_autocompletions
    rw [h, hc]

/-- Witness for `C7_value_candidates`: the choice-set case of the
`--opt1` option with choices `{opt11, opt12}` and incomplete `"op"`. -/
theorem C7_witness :
    get_user_autocompletions interp0 ctxC6ex ["--opt1"] "op"
        { kind := ParamKind.option, name := "opt1", opts := ["--opt1"],
          secondary_opts := [], nargs := 1, is_flag := false, multiple := false,
          hidden := false, help := none,
          ptype := ParamType.choice ["opt11", "opt12"], autocompletion := none }
      = ((["opt11", "opt12"].filter (fun c => str_isPrefixOf "op" c)).map
          (fun c => ((c, none) : Candidate))) :=
  (C7_value_candidates interp0 ctxC6ex ["--opt1"] "op"
    { kind := ParamKind.option, name := "opt1", opts := ["--opt1"],
      secondary_opts := [], nargs := 1, is_flag := false, multiple := false,
      hidden := false, help := none,
      ptype := ParamType.choice ["opt11", "opt12"], autocompletion := none }).1
    ["opt11", "opt12"] rfl

/-! ## Claim C8 -/

/-- `List.lookup` on a cons cell, stated with an `if`. -/
theorem lookup_cons_pair (k : String) (p : String × CompletionCls)
    (l : List (String × CompletionCls)) :
    List.lookup k (p :: l) = if k == p.1 then some p.2 else List.lookup k l := by
  cases p with
  | mk a v => cases h : k == a <;> simp [List.lookup, h]

/-- After the in-place replacement step of `dict_set`, looking up `name`
yields the new class, provided `name` had an entry. -/
theorem lookup_map_replace_self (name : String) (c : CompletionCls) :
    ∀ reg : List (String × CompletionCls), (reg.lookup name).isSome = true →
      (reg.map (fun p => if p.1 == name then (name, c) else p)).lookup name
        = some c := by
  intro reg
  induction reg with
  | nil => intro hex; simp [List.lookup] at hex
  | cons p reg ih =>
      intro hex
      by_cases hp : (p.1 == name) = true
      · rw [List.map_cons, if_pos hp, lookup_cons_pair]
        rw [if_pos (beq_self_eq_true name)]
      · have hp' : (p.1 == name) = false := by
          cases h : p.1 == name with
          | false => rfl
          | true => exact absurd h hp
        have hn : (name == p.1) = false := by
          cases h : name == p.1 with
          | false => rfl
          | true =>
              exfalso
              rw [eq_of_beq h, beq_self_eq_true] at hp'
              exact Bool.true_eq_false.mp hp'
        have hnne : ¬((name == p.1) = true) := by
          rw [hn]; exact Bool.false_ne_true
        rw [lookup_cons_pair, if_neg hnne] at hex
        rw [List.map_cons, if_neg hp, lookup_cons_pair, if_neg hnne]
        exact ih hex

/-- After `dict_set reg name c`, looking up `name` yields `c` — whether
`name` was already registered or not. -/
theorem lookup_dict_set_self (reg : List (String × CompletionCls)) (name : String)
    (c : CompletionCls) : (dict_set reg name c).lookup name = some c := by
  unfold dict_set
  by_cases hex : (reg.lookup name).isSome = true
  · rw [if_pos hex]
    exact lookup_map_replace_self name c reg hex
  · rw [if_neg hex]
    have hnone : reg.lookup name = none := by
      cases hl : reg.lookup name with
      | none => rfl
      | some v => exact absurd (by rw [hl]; rfl) hex
    clear hex
    induction reg with
    | nil =>
        rw [List.nil_append, lookup_cons_pair]
        rw [if_pos (beq_self_eq_true name)]
    | cons p reg ih =>
        rw [lookup_cons_pair] at hnone
        have hn : (name == p.1) = false := by
          cases h : name == p.1 with
          | false => rfl
          | true => rw [h] at hnone; simp at hnone
        have hnne : ¬((name == p.1) = true) := by
          rw [hn]; exact Bool.false_ne_true
        rw [if_neg hnne] at hnone
        rw [List.cons_append, lookup_cons_pair, if_neg hnne]
        exact ih hnone

/-- A class whose direct base is `BashComplete` — it extends
`ShellComplete` (transitively), but not directly. -/
def indirectCls : CompletionCls :=
  { base_chain := ["BashComplete", "ShellComplete", "object"],
    src_template := some COMPLETION_SCRIPT_BASH,
    src_checks_bash_version := true, cmpl_implemented := true }

/-- C8, counterexample.  A completion class that extends `ShellComplete`
through `BashComplete` is nevertheless rejected by
`add_completion_class`, because the code compares `__base__` (the direct
base only) with `ShellComplete`; so "raises exactly when the class does
not extend `ShellComplete`" fails. -/
theorem C8_counterexample :
    cls_extends_shell_complete indirectCls = true ∧
      add_completion_class available_shells "mybash" indirectCls
        = Except.error "Completion class must extend `ShellComplete`" :=
  ⟨by decide, rfl⟩

/-- C8, amended.  `add_completion_class(name, completion_class)` raises
an error — leaving the registry unchanged, since the raise precedes the
mutation — exactly when the given class's *direct* base class is not
`ShellComplete` (so a class extending `ShellComplete` only transitively
is also rejected); otherwise it stores the class in the registry under
the given name, whether that name is new or already registered. -/
theorem C8_amended (reg : List (String × CompletionCls)) (name : String)
    (c : CompletionCls) :
    (c.base_chain.head? ≠ some "ShellComplete" →
        add_completion_class reg name c
          = Except.error "Completion class must extend `ShellComplete`")
    ∧ (c.base_chain.head? = some "ShellComplete" →
        add_completion_class reg name c = Except.ok (dict_set reg name c)
        ∧ (dict_set reg name c).lookup name = some c) := by
  constructor
  · intro h
    unfold add_completion_class
    have : (c.base_chain.head? != some "ShellComplete") = true := bne_iff_ne.mpr h
    rw [this]
    simp
  · intro h
    have : (c.base_chain.head? != some "ShellComplete") = false := by
      rw [h]
      exact bne_self_eq_false _
    constructor
    · unfold add_completion_class
      rw [this]
      simp
    · exact lookup_dict_set_self reg name c

/-- A well-formed user adapter class whose direct base is
`ShellComplete`. -/
def powershellCls : CompletionCls :=
  { base_chain := ["ShellComplete", "object"], src_template := some "PS_TEMPLATE",
    src_checks_bash_version := false, cmpl_implemented := true }

/-- Witness for `C8_amended`: registering a direct subclass of
`ShellComplete` under a new name succeeds and the registry then resolves
that name to the class. -/
theorem C8_witness :
    add_completion_class available_shells "psh" powershellCls
        = Except.ok (dict_set available_shells "psh" powershellCls)
      ∧ (dict_set available_shells "psh" powershellCls).lookup "psh"
        = some powershellCls :=
  (C8_amended available_shells "psh" powershellCls).2 rfl

/-! ## Claim C9 -/

/-- C9, counterexample.  The instruction `source_nosuch` has command part
`source`, but `shell_complete` does not return `True` after emitting a
script: the unknown shell resolves to the `ShellComplete` base adapter,
whose `source()` raises `NotImplementedError` — so "returning True after
emitting the activation script when the command part is `source`"
fails. -/
theorem C9_counterexample :
    shell_complete available_shells false [] "prog" "_PROG_COMPLETE" "source_nosuch"
      = Except.error "NotImplementedError: source function needs to be overridden" := rfl

/-- C9, amended.  `shell_complete` splits the instruction at the first
underscore into a command part and a shell part, defaulting the shell to
`bash` when no underscore is present (first conjunct); when the command
part is `source` and the resolved adapter's `source()` and the subsequent
template formatting succeed, it returns `True` after emitting the
formatted activation script (second conjunct); with an unregistered shell
the base adapter's not-implemented error propagates instead of a return
(third conjunct); and for every instruction whose command part is neither
`source` nor `complete` it returns failure (`False`) and emits no output
(fourth conjunct). -/
theorem C9_amended (reg : List (String × CompletionCls)) (bash_too_old : Bool)
    (emissions : List String) (prog_name complete_var instr : String) :
    (instr.data.contains '_' = false → shell_instr_split instr = (instr, "bash"))
    ∧ (∀ script, (shell_instr_split instr).1 = "source" →
        get_completion_script bash_too_old reg prog_name complete_var
            (shell_instr_split instr).2 = Except.ok script →
        shell_complete reg bash_too_old emissions prog_name complete_var instr
          = Except.ok (true, [script]))
    ∧ ((shell_instr_split instr).1 = "source" →
        reg.lookup (shell_instr_split instr).2 = none →
        shell_complete reg bash_too_old emissions prog_name complete_var instr
          = Except.error "NotImplementedError: source function needs to be overridden")
    ∧ ((shell_instr_split instr).1 ≠ "source" → (shell_instr_split instr).1 ≠ "complete" →
        shell_complete reg bash_too_old emissions prog_name complete_var instr
          = Except.ok (false, [])) := by
  refine ⟨?_, ?_, ?_, ?_⟩
  · intro h
    unfold shell_instr_split
    rw [h]
    simp
  · intro script h1 h2
    unfold shell_complete
    have hb : ((shell_instr_split instr).1 == "source") = true := by
      rw [h1]
      exact beq_self_eq_true _
    simp only [hb, if_true]
    rw [h2]
  · intro h1 hlook
    unfold shell_complete
    have hb : ((shell_instr_split instr).1 == "source") = true := by
      rw [h1]
      exact beq_self_eq_true _
    simp only [hb, if_true]
    unfold get_completion_script
    have hsrc : get_completion_source reg (shell_instr_split instr).2
        = ShellCompleteBase := by
      unfold get_completion_source
      rw [hlook]
      rfl
    rw [hsrc]
    rfl
  · intro h1 h2
    unfold shell_complete
    have hb1 : ((shell_instr_split instr).1 == "source") = false := by
      cases h : (shell_instr_split instr).1 == "source" with
      | false => rfl
      | true => exact absurd (eq_of_beq h) h1
    have hb2 : ((shell_instr_split instr).1 == "complete") = false := by
      cases h : (shell_instr_split instr).1 == "complete" with
      | false => rfl
      | true => exact absurd (eq_of_beq h) h2
    simp only [hb1, hb2, Bool.false_eq_true, if_false]

/-- The completion script emitted for program name `prog` and trigger
variable `_PROG_COMPLETE` under the zsh adapter: the zsh template,
`%`-formatted and stripped with `;` appended, as the embedded
`get_completion_script` pipeline computes it. -/
def zsh_script_for_prog : String :=
  match get_completion_script false available_shells "prog" "_PROG_COMPLETE" "zsh" with
  | Except.ok s => s
  | Except.error e => e

/-- Witness for `C9_amended`: the `source_zsh` instruction against the
initial registry formats the real zsh template and returns `True` with
the script emitted.  (The proof's `rfl` hypothesis also certifies that
the whole `source()`-plus-formatting pipeline succeeds on the shipped
template.) -/
theorem C9_witness :
    shell_complete available_shells false [] "prog" "_PROG_COMPLETE" "source_zsh"
      = Except.ok (true, [zsh_script_for_prog]) :=
  (C9_amended available_shells false [] "prog" "_PROG_COMPLETE" "source_zsh").2.1
    zsh_script_for_prog (by decide) (by set_option maxRecDepth 8192 in rfl)

end ClickComp
